import Mathlib

/-!
Verification of the live session relay of this repository.

The duplex relay loops and their task-group coordination are embedded from
src/main.py (the websocket endpoint, its inbound handler
handle_websocket_messages, its outbound handler
receive_and_process_responses, and the task group of lines 422-432).  The
Session Store, Timeout Supervisor and shutdown drain have no implementation
under src (src/main.py line 138 notes that session management is delegated
to the external ADK SessionService); those components are modelled from the
spec, each such definition carrying a doc comment that says so.
-/

/-! ## Base64, as used by src/main.py (base64.b64encode / base64.b64decode) -/

/-- The standard base64 alphabet. -/
def b64Chars : List Char :=
  "ABCDEFGHIJKLMNOPQRSTUVWXYZabcdefghijklmnopqrstuvwxyz0123456789+/".toList

/-- Character for a 6-bit value. -/
def b64Char (n : Nat) : Char := b64Chars.getD n 'A'

/-- Encode up to three bytes into four base64 characters, with padding. -/
def b64EncodeGroup : List Nat → List Char
  | [a] => [b64Char (a / 4), b64Char ((a % 4) * 16), '=', '=']
  | [a, b] => [b64Char (a / 4), b64Char ((a % 4) * 16 + b / 16), b64Char ((b % 16) * 4), '=']
  | [a, b, c] =>
      [b64Char (a / 4), b64Char ((a % 4) * 16 + b / 16),
       b64Char ((b % 16) * 4 + c / 64), b64Char (c % 64)]
  | _ => []

/-- Encode a byte list, three bytes at a time. -/
def b64EncodeBytes : List Nat → List Char
  | a :: b :: c :: rest => b64EncodeGroup [a, b, c] ++ b64EncodeBytes rest
  | rest => b64EncodeGroup rest

/-- Model of Python base64.b64encode(data).decode("ascii"). -/
def base64Encode (bs : List Nat) : String := String.mk (b64EncodeBytes bs)

/-- Value of a base64 character, none for a character outside the alphabet. -/
def b64CharVal (c : Char) : Option Nat := b64Chars.findIdx? (fun d => d = c)

/-- Decode four base64 characters at a time; none models the decode error
Python raises on malformed input (caught by the inbound loop). -/
def b64DecodeChars : List Char → Option (List Nat)
  | [] => some []
  | [a, b, '=', '='] => do
      let va ← b64CharVal a
      let vb ← b64CharVal b
      some [va * 4 + vb / 16]
  | [a, b, c, '='] => do
      let va ← b64CharVal a
      let vb ← b64CharVal b
      let vc ← b64CharVal c
      some [va * 4 + vb / 16, (vb % 16) * 16 + vc / 4]
  | a :: b :: c :: d :: rest => do
      let va ← b64CharVal a
      let vb ← b64CharVal b
      let vc ← b64CharVal c
      let vd ← b64CharVal d
      let tail ← b64DecodeChars rest
      some ([va * 4 + vb / 16, (vb % 16) * 16 + vc / 4, (vc % 4) * 64 + vd] ++ tail)
  | _ => none

/-- Model of Python base64.b64decode. -/
def base64Decode (s : String) : Option (List Nat) := b64DecodeChars s.toList

/-! ## Agent events, as consumed by src/main.py receive_and_process_responses -/

/-- A binary payload attached to an event part (google.genai Blob as read by
src/main.py lines 394-402: mime_type and data). -/
structure Blob where
  mimeType : String
  data : List Nat
deriving DecidableEq

/-- One part of an event content (text and inline_data as read by src/main.py;
Python None is Option.none, and an empty string or empty bytes is falsy). -/
structure EventPart where
  text : Option String
  inlineData : Option Blob
deriving DecidableEq

/-- Event content: role and parts, as read at src/main.py lines 385-389. -/
structure EventContent where
  role : Option String
  parts : List EventPart
deriving DecidableEq

/-- An agent event as consumed by the outbound loop (src/main.py lines
375-407): turn_complete, interrupted, content, partial. -/
structure AgentEvent where
  turnComplete : Bool
  interrupted : Bool
  content : Option EventContent
  partialFlag : Bool
deriving DecidableEq

/-- Model of Python str.startswith, by character-list comparison. -/
def pyStartsWith (s p : String) : Bool := p.toList.isPrefixOf s.toList

/-- Python truthiness of part.text: None and the empty string are falsy. -/
def textTruthy : Option String → Bool
  | none => false
  | some s => !s.isEmpty

/-- src/main.py line 385: part = event.content and event.content.parts and
event.content.parts[0]. -/
def firstPart (e : AgentEvent) : Option EventPart :=
  e.content.bind (fun c => c.parts.head?)

/-- src/main.py line 389: role = event.content and event.content.role. -/
def roleOf (e : AgentEvent) : Option String :=
  e.content.bind EventContent.role

/-- src/main.py line 394: is_audio = part.inline_data and
part.inline_data.mime_type.startswith("audio/pcm"). -/
def isAudio (p : EventPart) : Bool :=
  match p.inlineData with
  | some b => pyStartsWith b.mimeType "audio/pcm"
  | none => false

/-- src/main.py line 398: audio_data = part.inline_data and
part.inline_data.data (empty bytes are falsy). -/
def audioData (p : EventPart) : List Nat :=
  match p.inlineData with
  | some b => b.data
  | none => []

/-- A JSON message sent to the client over the websocket, as built by
src/main.py: the session_info message (lines 315-326), the control message
with turn_complete and interrupted (lines 377-381), and the media messages
with mime_type, data and an optional role (lines 400-420; the audio message
carries no role key). -/
inductive ClientFrame where
  | sessionInfo (userId : String) (sessionId : String)
  | control (turnComplete : Bool) (interrupted : Bool)
  | media (mimeType : String) (data : String) (role : Option String)
deriving DecidableEq

/-- One iteration of the outbound loop body (src/main.py lines 375-420):
the frames sent to the client for one agent event.  A control marker is
serialized and the loop continues; audio whose mime type starts with
"audio/pcm" and has nonempty data is base64-encoded and sent tagged with the
literal "audio/pcm" (line 401); text is sent when partial with role model or
when role is user, carrying the role; everything else sends nothing. -/
def processEvent (e : AgentEvent) : List ClientFrame :=
  if e.turnComplete || e.interrupted then
    [ClientFrame.control e.turnComplete e.interrupted]
  else
    match firstPart e with
    | none => []
    | some p =>
      if isAudio p = true ∧ audioData p ≠ [] then
        [ClientFrame.media "audio/pcm" (base64Encode (audioData p)) none]
      else if textTruthy p.text = true ∧ e.partialFlag = true ∧ roleOf e = some "model" then
        [ClientFrame.media "text/plain" (p.text.getD "") (roleOf e)]
      else if textTruthy p.text = true ∧ roleOf e = some "user" then
        [ClientFrame.media "text/plain" (p.text.getD "") (roleOf e)]
      else []

/-- The outbound loop (src/main.py lines 374-420): iterate over the agent
event sequence, sending the frames of each event; the loop body never breaks,
so the frames are the concatenation over all events. -/
def receive_and_process_responses : List AgentEvent → List ClientFrame
  | [] => []
  | e :: evs => processEvent e ++ receive_and_process_responses evs

/-! ## Inbound client messages, as consumed by handle_websocket_messages -/

/-- One inbound interaction of the client socket as seen by the loop at
src/main.py lines 328-372: a disconnect (WebSocketDisconnect raised by
receive_text), a message that is not valid JSON (json.loads raises
JSONDecodeError), or a decoded JSON object of which the loop reads mime_type
and data. -/
inductive InMsg where
  | disconnect
  | malformed
  | json (mimeType : Option String) (data : Option String)
deriving DecidableEq

/-- What the inbound loop forwards into the agent input sink
(live_request_queue.send_realtime with a blob, or send_content with a user
text part). -/
inductive AgentInput where
  | realtime (data : List Nat) (mimeType : String)
  | content (role : String) (text : Option String)
deriving DecidableEq

/-- One iteration of the inbound loop body (src/main.py lines 331-368).
none means the loop breaks (only WebSocketDisconnect does, line 364); some
gives the inputs forwarded to the agent this iteration.  Invalid JSON is
caught and logged (line 365), a missing mime_type raises an attribute error
caught by the generic handler (line 367), an unrecognized mime_type matches
no branch, and a base64 decode error is caught by the generic handler: in all
these cases the loop continues having forwarded nothing. -/
def handleOneMessage (m : InMsg) : Option (List AgentInput) :=
  match m with
  | .disconnect => none
  | .malformed => some []
  | .json mt d =>
    match mt with
    | none => some []
    | some mt =>
      if pyStartsWith mt "audio/pcm" then
        match base64Decode (d.getD "") with
        | some bytes => some [AgentInput.realtime bytes mt]
        | none => some []
      else if mt = "image/jpeg" then
        match base64Decode (d.getD "") with
        | some bytes => some [AgentInput.realtime bytes "image/jpeg"]
        | none => some []
      else if mt = "text/plain" then
        some [AgentInput.content "user" d]
      else
        some []

/-- The inbound loop (src/main.py lines 328-372): process client messages in
order until a disconnect breaks the loop; returns everything forwarded to the
agent sink. -/
def handle_websocket_messages : List InMsg → List AgentInput
  | [] => []
  | m :: rest =>
    match handleOneMessage m with
    | none => []
    | some ins => ins ++ handle_websocket_messages rest


/-! ## The websocket endpoint trace (src/main.py websocket_endpoint) -/

/-- An observable action of the connection handler: a frame sent to the
client, or an input forwarded to the agent sink. -/
inductive RelayAction where
  | sent (f : ClientFrame)
  | toAgent (i : AgentInput)
deriving DecidableEq

/-- Whether an action is the sending of a session_info frame. -/
def isInfoAction : RelayAction → Bool
  | .sent (.sessionInfo _ _) => true
  | _ => false

/-- Cooperative interleaving of the two concurrently scheduled loop bodies of
src/main.py lines 422-425: each scheduler step runs one iteration of the
outbound loop (true) or of the inbound loop (false); once the inbound loop
has broken on a disconnect it contributes nothing further. -/
def interleaveLoops : List Bool → List AgentEvent → List InMsg → Bool → List RelayAction
  | [], _, _, _ => []
  | b :: sched, evs, msgs, inDone =>
    if b then
      match evs with
      | [] => interleaveLoops sched [] msgs inDone
      | e :: evs => (processEvent e).map RelayAction.sent ++ interleaveLoops sched evs msgs inDone
    else
      if inDone then interleaveLoops sched evs msgs inDone
      else
        match msgs with
        | [] => interleaveLoops sched evs msgs inDone
        | m :: msgs =>
          match handleOneMessage m with
          | none => interleaveLoops sched evs msgs true
          | some ins => ins.map RelayAction.toAgent ++ interleaveLoops sched evs msgs false

/-- src/main.py websocket_endpoint, lines 314-425: after accepting the
connection the handler first sends the session_info frame (lines 315-326),
and only then starts the two relay loops in a task group (lines 422-425). -/
def websocket_endpoint_trace (userId sessionId : String) (sched : List Bool)
    (evs : List AgentEvent) (msgs : List InMsg) : List RelayAction :=
  RelayAction.sent (ClientFrame.sessionInfo userId sessionId) ::
    interleaveLoops sched evs msgs false

/-! ## Session Store, modelled from the spec -/

/-- Modelled from the spec: a Session record (spec section 3).  The store
itself is absent from src (src/main.py line 138 delegates session storage to
the external ADK SessionService), so it is modelled from spec section 4.1.
The handle is the identifier of the agent handle allocated at creation;
lastActivity is the basis of idle-timeout and LRU ordering. -/
structure SessionRec where
  handle : Nat
  lastActivity : Nat
deriving DecidableEq

/-- Modelled from the spec: the Session Store (spec section 4.1), an ordered
mapping from key to session record; the entry list is kept in
least-recently-touched-first order, the closed list records every agent
handle that has been closed, and nextHandle allocates fresh handles. -/
structure SessionStore where
  maxSessions : Nat
  entries : List (String × SessionRec)
  closed : List Nat
  nextHandle : Nat
deriving DecidableEq

/-- Modelled from the spec: the empty store at startup. -/
def initStore (m : Nat) : SessionStore := ⟨m, [], [], 0⟩

/-- Find the entry of a key. -/
def findEntry (k : String) (l : List (String × SessionRec)) :
    Option (String × SessionRec) :=
  l.find? (fun e => e.1 == k)

/-- Delete the entry of a key. -/
def eraseKey (k : String) (l : List (String × SessionRec)) :
    List (String × SessionRec) :=
  l.filter (fun e => !(e.1 == k))

/-- Modelled from the spec: evict the least-recently-touched entry, closing
its agent handle (spec section 4.1, eviction policy). -/
def evictLRU (s : SessionStore) : SessionStore :=
  match s.entries with
  | [] => s
  | e :: rest => { s with entries := rest, closed := s.closed ++ [e.2.handle] }

/-- Modelled from the spec: GetOrCreate (spec section 4.1).  An existing entry
is refreshed to the most-recently-used position; otherwise the
least-recently-used entry is evicted first when the store is at capacity
(capacity checked before insertion), and a fresh session with a newly
allocated agent handle is inserted. -/
def getOrCreate (k : String) (now : Nat) (s : SessionStore) : SessionStore × Bool :=
  match findEntry k s.entries with
  | some e =>
      ({ s with entries := eraseKey k s.entries ++ [(k, { e.2 with lastActivity := now })] },
       false)
  | none =>
      let s1 := if s.maxSessions ≤ s.entries.length then evictLRU s else s
      ({ s1 with
          entries := s1.entries ++ [(k, ⟨s1.nextHandle, now⟩)],
          nextHandle := s1.nextHandle + 1 },
       true)

/-- Modelled from the spec: Touch (spec section 4.1) moves the entry to the
most-recently-used position and refreshes lastActivity. -/
def touchKey (k : String) (now : Nat) (s : SessionStore) : SessionStore :=
  match findEntry k s.entries with
  | some e =>
      { s with entries := eraseKey k s.entries ++ [(k, { e.2 with lastActivity := now })] }
  | none => s

/-- Modelled from the spec: Remove (spec section 4.1) closes the agent handle
and deletes the entry; removing an absent key is a no-op and neither case is
an error (the returned error is always none). -/
def removeKey (k : String) (s : SessionStore) : SessionStore × Option String :=
  match findEntry k s.entries with
  | some e =>
      ({ s with entries := eraseKey k s.entries, closed := s.closed ++ [e.2.handle] }, none)
  | none => (s, none)

/-- A store operation of the interface exercised by the claims. -/
inductive StoreOp where
  | getOrCreate (k : String) (now : Nat)
  | touch (k : String) (now : Nat)
  | remove (k : String)
deriving DecidableEq

/-- Apply one store operation. -/
def applyOp (s : SessionStore) : StoreOp → SessionStore
  | .getOrCreate k now => (getOrCreate k now s).1
  | .touch k now => touchKey k now s
  | .remove k => (removeKey k s).1

/-- Apply a sequence of store operations. -/
def applyOps (ops : List StoreOp) (s : SessionStore) : SessionStore :=
  ops.foldl applyOp s

/-- The keys of the store, in LRU order. -/
def storeKeys (s : SessionStore) : List String := s.entries.map Prod.fst

/-- Every live or closed agent handle of the store. -/
def handleList (s : SessionStore) : List Nat :=
  s.entries.map (fun e => e.2.handle) ++ s.closed

/-- The capacity and uniqueness invariant of the store. -/
def storeInv (s : SessionStore) : Prop :=
  s.entries.length ≤ s.maxSessions ∧ (s.entries.map Prod.fst).Nodup

/-- The agent-handle invariant: no handle occurs twice among the live and
closed handles, and every such handle was allocated below nextHandle. -/
def handleInv (s : SessionStore) : Prop :=
  (handleList s).Nodup ∧ ∀ h ∈ handleList s, h < s.nextHandle

/-- The combined store invariant. -/
def storeOK (s : SessionStore) : Prop := storeInv s ∧ handleInv s

/-- Modelled from the spec: the Shutdown Coordinator drain (spec section 4.5)
removes every remaining key of the store, closing every agent handle. -/
def drainStore (s : SessionStore) : SessionStore :=
  (storeKeys s).foldl (fun st k => (removeKey k st).1) s

/-! ## Timeout Supervisor, modelled from the spec -/

/-- Modelled from the spec: the state of one session under its Timeout
Supervisor (spec section 4.2).  gen is the generation of the currently armed
timer: a Touch cancels-and-restarts the timer by bumping the generation, so a
previously armed timer can no longer fire.  deadline is the armed timer
deadline. -/
structure TimerState where
  present : Bool
  gen : Nat
  deadline : Nat
deriving DecidableEq

/-- Modelled from the spec: events of one session timeline, in time order: a
Touch at a time, or the firing of the timer of a given generation at a time. -/
inductive TimerEvent where
  | touch (t : Nat)
  | fire (g : Nat) (t : Nat)
deriving DecidableEq

/-- Modelled from the spec (section 4.2): a Touch on a present session cancels
the armed timer (generation bump) and restarts it for t + idleTimeout; a
firing removes the session only if the session is present, the firing timer is
the currently armed one (it was not cancelled), and its deadline has been
reached. -/
def timerStep (idleTimeout : Nat) (st : TimerState) : TimerEvent → TimerState
  | .touch t =>
      if st.present then { st with gen := st.gen + 1, deadline := t + idleTimeout } else st
  | .fire g t =>
      if st.present ∧ g = st.gen ∧ st.deadline ≤ t then { st with present := false } else st

/-- Modelled from the spec: run a session created at time 0 (timer generation
0, deadline idleTimeout) through a timeline of events. -/
def timerRun (idleTimeout : Nat) (evs : List TimerEvent) : TimerState :=
  evs.foldl (timerStep idleTimeout) ⟨true, 0, idleTimeout⟩

/-! ## The endpoint loop coordination (src/main.py lines 422-432) -/

/-- State of the endpoint task group run (src/main.py lines 422-432): whether
each relay task has terminated, whether cancellation of each has been
requested, and how often the client socket and the borrowed agent handle have
been released.  src releases neither resource anywhere: the handler never
closes the websocket, live_request_queue.close is never called, and the
finally block at lines 431-432 only logs. -/
structure TaskGroupState where
  inboundDone : Bool
  outboundDone : Bool
  inboundCancelRequested : Bool
  outboundCancelRequested : Bool
  socketReleased : Nat
  handleReleased : Nat
deriving DecidableEq

/-- Initial state of the endpoint coordination: both relay tasks running, no
cancellation requested, nothing released. -/
def tgInit : TaskGroupState := ⟨false, false, false, false, 0, 0⟩

/-- Events of the task-group run at src/main.py lines 422-432: a task returns
normally; a task raises, whereupon asyncio.TaskGroup requests cancellation of
the still-running sibling (its only cancellation trigger); a task whose
cancellation was requested terminates at its next await; or, both tasks being
done, the async-with exits and the finally block of lines 431-432 runs. -/
inductive TgEvent where
  | inboundReturns
  | outboundReturns
  | inboundRaises
  | outboundRaises
  | inboundObservesCancel
  | outboundObservesCancel
  | groupExit
deriving DecidableEq

/-- Semantics of the coordination in src/main.py lines 422-432.
asyncio.TaskGroup cancels the sibling task only when a task raises an
exception; a task returning normally leaves the sibling untouched and still
blocked on its next event.  The finally block (lines 431-432) only logs, so
no event releases the client socket or the agent handle. -/
def taskGroupStep (s : TaskGroupState) : TgEvent → TaskGroupState
  | .inboundReturns =>
      if !s.inboundDone then { s with inboundDone := true } else s
  | .outboundReturns =>
      if !s.outboundDone then { s with outboundDone := true } else s
  | .inboundRaises =>
      if !s.inboundDone then
        { s with inboundDone := true, outboundCancelRequested := true }
      else s
  | .outboundRaises =>
      if !s.outboundDone then
        { s with outboundDone := true, inboundCancelRequested := true }
      else s
  | .inboundObservesCancel =>
      if !s.inboundDone && s.inboundCancelRequested then
        { s with inboundDone := true }
      else s
  | .outboundObservesCancel =>
      if !s.outboundDone && s.outboundCancelRequested then
        { s with outboundDone := true }
      else s
  | .groupExit => s

/-- Run the endpoint coordination of src/main.py lines 422-432 over a list of
events, from the initial state. -/
def tgRun (evs : List TgEvent) : TaskGroupState := evs.foldl taskGroupStep tgInit


/-! ## Concrete events and messages used by the scenario claims -/

/-- A partial text event with role model, as the mock agent of the end-to-end
scenario emits. -/
def partialModelText (t : String) : AgentEvent :=
  ⟨false, false, some ⟨some "model", [⟨some t, none⟩]⟩, true⟩

/-- A turn-completion marker event. -/
def turnCompleteEvent : AgentEvent := ⟨true, false, none, false⟩

/-- A final (non-partial) text event with role model. -/
def finalModelTextEvent : AgentEvent :=
  ⟨false, false, some ⟨some "model", [⟨some "done", none⟩]⟩, false⟩

/-- The first part of finalModelTextEvent. -/
def finalModelTextPart : EventPart := ⟨some "done", none⟩

/-- A final text event with role user. -/
def userTextEvent : AgentEvent :=
  ⟨false, false, some ⟨some "user", [⟨some "hi", none⟩]⟩, false⟩

/-- An audio chunk whose media type carries a rate parameter. -/
def paramAudioBlob : Blob := ⟨"audio/pcm;rate=24000", [1, 2, 3]⟩

/-- An event carrying paramAudioBlob as its first part. -/
def paramAudioEvent : AgentEvent :=
  ⟨false, false, some ⟨some "model", [⟨none, some paramAudioBlob⟩]⟩, false⟩

/-! ## C4 -/

/-- C4: for the agent event sequence of one partial text event "h", one
partial text event "hi", then a turn_complete event, the outbound loop sends,
in order, two text frames and then one control frame with turn_complete true;
and the control marker does not end the stream: an event appended after it is
still relayed. -/
theorem c4_scenario_two_texts_then_control :
    receive_and_process_responses
        [partialModelText "h", partialModelText "hi", turnCompleteEvent] =
      [ClientFrame.media "text/plain" "h" (some "model"),
       ClientFrame.media "text/plain" "hi" (some "model"),
       ClientFrame.control true false] ∧
    receive_and_process_responses
        [partialModelText "h", partialModelText "hi", turnCompleteEvent,
         partialModelText "again"] =
      [ClientFrame.media "text/plain" "h" (some "model"),
       ClientFrame.media "text/plain" "hi" (some "model"),
       ClientFrame.control true false,
       ClientFrame.media "text/plain" "again" (some "model")] := by
  constructor <;> decide

/-! ## C5 -/

/-- C5 counterexample: finalModelTextEvent carries a (final) text chunk in its
first part, yet the outbound loop forwards nothing for it, refuting the claim
that every text chunk, whether partial or final, is forwarded. -/
theorem c5_counterexample_final_model_text_dropped :
    firstPart finalModelTextEvent = some finalModelTextPart ∧
    textTruthy finalModelTextPart.text = true ∧
    processEvent finalModelTextEvent = [] := by
  decide

/-- C5 amended: for an agent event whose first part carries a truthy text
chunk and which is neither a control marker nor a forwarded audio chunk, the
outbound loop forwards the chunk tagged as text and preserving the role
exactly when the chunk is partial with role model, or the role is user;
otherwise (in particular for final model text) it forwards nothing. -/
theorem c5_text_dispatch (e : AgentEvent) (p : EventPart)
    (hc : e.turnComplete = false) (hi : e.interrupted = false)
    (hp : firstPart e = some p) (ht : textTruthy p.text = true)
    (hga : isAudio p = false ∨ audioData p = []) :
    ((e.partialFlag = true ∧ roleOf e = some "model") ∨ roleOf e = some "user" →
      processEvent e = [ClientFrame.media "text/plain" (p.text.getD "") (roleOf e)]) ∧
    (¬((e.partialFlag = true ∧ roleOf e = some "model") ∨ roleOf e = some "user") →
      processEvent e = []) := by
  have haud : ¬(isAudio p = true ∧ audioData p ≠ []) := by
    rcases hga with h | h
    · intro hcon; rw [h] at hcon; exact absurd hcon.1 (by simp)
    · intro hcon; exact hcon.2 h
  constructor
  · intro hcase
    unfold processEvent
    simp only [hc, hi, Bool.or_self, Bool.false_eq_true, if_false, hp]
    rw [if_neg haud]
    rcases hcase with ⟨hpar, hrol⟩ | hrol
    · rw [if_pos ⟨ht, hpar, hrol⟩]
    · by_cases hm : textTruthy p.text = true ∧ e.partialFlag = true ∧ roleOf e = some "model"
      · rw [if_pos hm]
      · rw [if_neg hm, if_pos ⟨ht, hrol⟩]
  · intro hcase
    unfold processEvent
    simp only [hc, hi, Bool.or_self, Bool.false_eq_true, if_false, hp]
    rw [if_neg haud]
    rw [if_neg (fun hcon => hcase (Or.inl ⟨hcon.2.1, hcon.2.2⟩))]
    rw [if_neg (fun hcon => hcase (Or.inr hcon.2))]

/-- C5 witness: a concrete final text event with role user is forwarded
tagged as text with its role. -/
theorem c5_text_dispatch_witness :
    processEvent userTextEvent =
      [ClientFrame.media "text/plain" "hi" (some "user")] :=
  (c5_text_dispatch userTextEvent ⟨some "hi", none⟩ rfl rfl rfl (by decide)
    (Or.inl rfl)).1 (Or.inr rfl)

/-! ## C6 -/

/-- C6 counterexample: the source reports the media type
"audio/pcm;rate=24000" for the chunk, yet the frame sent to the client is
tagged with the fixed label "audio/pcm", not with the media type of the
chunk itself. -/
theorem c6_counterexample_media_type_not_preserved :
    (firstPart paramAudioEvent).bind EventPart.inlineData = some paramAudioBlob ∧
    processEvent paramAudioEvent =
      [ClientFrame.media "audio/pcm" (base64Encode paramAudioBlob.data) none] ∧
    "audio/pcm" ≠ paramAudioBlob.mimeType := by
  decide

/-- C6 amended: for every agent event that is not a control marker and whose
first part carries a binary chunk whose media type starts with "audio/pcm"
and whose data is nonempty, the outbound loop forwards the chunk
base64-encoded, tagged with the fixed label "audio/pcm" (chunks of any other
media type are not forwarded by the audio path). -/
theorem c6_audio_forwarding (e : AgentEvent) (p : EventPart) (b : Blob)
    (hc : e.turnComplete = false) (hi : e.interrupted = false)
    (hp : firstPart e = some p) (hb : p.inlineData = some b)
    (hm : pyStartsWith b.mimeType "audio/pcm" = true) (hd : b.data ≠ []) :
    processEvent e = [ClientFrame.media "audio/pcm" (base64Encode b.data) none] := by
  have h1 : isAudio p = true := by unfold isAudio; rw [hb]; exact hm
  have h2 : audioData p = b.data := by unfold audioData; rw [hb]
  unfold processEvent
  simp only [hc, hi, Bool.or_self, Bool.false_eq_true, if_false, hp]
  rw [if_pos ⟨h1, by rw [h2]; exact hd⟩, h2]

/-- C6 witness: the amended audio forwarding at the concrete chunk with media
type "audio/pcm;rate=24000" and data bytes 1, 2, 3. -/
theorem c6_audio_forwarding_witness :
    processEvent paramAudioEvent =
      [ClientFrame.media "audio/pcm" (base64Encode [1, 2, 3]) none] :=
  c6_audio_forwarding paramAudioEvent ⟨none, some paramAudioBlob⟩ paramAudioBlob
    rfl rfl rfl rfl (by decide) (by decide)

/-! ## C7 -/

/-- C7 counterexample: the inbound loop does not terminate on a malformed
message or on an unrecognized payload type: after one malformed message and
one message of unrecognized type, a later well-formed text message is still
forwarded to the agent, refuting the claim that such messages are fatal to
the connection. -/
theorem c7_counterexample_malformed_not_fatal :
    handle_websocket_messages
        [InMsg.malformed, InMsg.json (some "application/x-unknown") (some "z"),
         InMsg.json (some "text/plain") (some "hi")] =
      [AgentInput.content "user" (some "hi")] := by
  decide

/-- C7 amended: a malformed message, a message of unrecognized payload type,
or a message with no payload type is logged and skipped: the inbound loop
forwards nothing for it and continues with the remaining messages unchanged;
only a client disconnect terminates the loop.  The loop touches no other
session either way (its only effect is what it forwards to this connection's
agent sink). -/
theorem c7_bad_messages_skipped (rest : List InMsg) (mt : String) (d : Option String)
    (h1 : pyStartsWith mt "audio/pcm" = false) (h2 : mt ≠ "image/jpeg")
    (h3 : mt ≠ "text/plain") :
    handle_websocket_messages (InMsg.malformed :: rest) =
      handle_websocket_messages rest ∧
    handle_websocket_messages (InMsg.json (some mt) d :: rest) =
      handle_websocket_messages rest ∧
    handle_websocket_messages (InMsg.json none d :: rest) =
      handle_websocket_messages rest ∧
    handle_websocket_messages (InMsg.disconnect :: rest) = [] := by
  refine ⟨rfl, ?_, rfl, rfl⟩
  simp only [handle_websocket_messages, handleOneMessage]
  rw [if_neg (by simp [h1]), if_neg h2, if_neg h3]
  simp

/-- C7 witness: the amended skipping behaviour at a concrete unrecognized
payload type and a concrete remaining message list. -/
theorem c7_bad_messages_skipped_witness :
    handle_websocket_messages
        [InMsg.malformed, InMsg.json (some "text/plain") (some "ok")] =
      handle_websocket_messages [InMsg.json (some "text/plain") (some "ok")] ∧
    handle_websocket_messages
        [InMsg.json (some "video/h264") (some "q"),
         InMsg.json (some "text/plain") (some "ok")] =
      handle_websocket_messages [InMsg.json (some "text/plain") (some "ok")] ∧
    handle_websocket_messages
        [InMsg.json none (some "q"), InMsg.json (some "text/plain") (some "ok")] =
      handle_websocket_messages [InMsg.json (some "text/plain") (some "ok")] ∧
    handle_websocket_messages
        [InMsg.disconnect, InMsg.json (some "text/plain") (some "ok")] = [] :=
  c7_bad_messages_skipped [InMsg.json (some "text/plain") (some "ok")]
    "video/h264" (some "q") (by decide) (by decide) (by decide)

/-! ## C10 -/

/-- The outbound loop body never produces a session_info frame: its frames
are control and media frames only. -/
lemma processEvent_not_info (e : AgentEvent) :
    ∀ f ∈ processEvent e, isInfoAction (RelayAction.sent f) = false := by
  intro f hf
  unfold processEvent at hf
  split at hf
  · simp at hf; subst hf; rfl
  · split at hf
    · simp at hf
    · split at hf
      · simp at hf; subst hf; rfl
      · split at hf
        · simp at hf; subst hf; rfl
        · split at hf
          · simp at hf; subst hf; rfl
          · simp at hf

/-- The interleaved relay loops never produce a session_info action. -/
lemma interleaveLoops_not_info :
    ∀ (sched : List Bool) (evs : List AgentEvent) (msgs : List InMsg)
      (inDone : Bool) (a : RelayAction),
      a ∈ interleaveLoops sched evs msgs inDone → isInfoAction a = false := by
  intro sched
  induction sched with
  | nil => intro evs msgs inDone a ha; simp [interleaveLoops] at ha
  | cons b sched ih =>
    intro evs msgs inDone a ha
    unfold interleaveLoops at ha
    split at ha
    · cases evs with
      | nil => exact ih _ _ _ _ ha
      | cons e evs =>
        rcases List.mem_append.mp ha with h | h
        · rcases List.mem_map.mp h with ⟨f, hf, rfl⟩
          exact processEvent_not_info e f hf
        · exact ih _ _ _ _ h
    · split at ha
      · exact ih _ _ _ _ ha
      · cases msgs with
        | nil => exact ih _ _ _ _ ha
        | cons m msgs =>
          rcases hm : handleOneMessage m with _ | ins
          · simp only [hm] at ha; exact ih _ _ _ _ ha
          · simp only [hm] at ha
            rcases List.mem_append.mp ha with h | h
            · rcases List.mem_map.mp h with ⟨i, hi2, rfl⟩; rfl
            · exact ih _ _ _ _ h

/-- C10: for every accepted connection, the very first action of the endpoint
is the sending of the session_info frame carrying the connection's user id
and the resolved session id, before any relayed agent event and before any
processed inbound message; and the whole trace contains exactly one
session_info frame. -/
theorem c10_session_info_first (userId sessionId : String) (sched : List Bool)
    (evs : List AgentEvent) (msgs : List InMsg) :
    (websocket_endpoint_trace userId sessionId sched evs msgs).head? =
      some (RelayAction.sent (ClientFrame.sessionInfo userId sessionId)) ∧
    (websocket_endpoint_trace userId sessionId sched evs msgs).countP isInfoAction = 1 := by
  constructor
  · rfl
  · unfold websocket_endpoint_trace
    have h0 : (interleaveLoops sched evs msgs false).countP isInfoAction = 0 :=
      List.countP_eq_zero.mpr (fun a ha => by
        simp [interleaveLoops_not_info sched evs msgs false a ha])
    rw [List.countP_cons_of_pos _ _ (by rfl), h0]

/-! ## Session Store lemmas -/

/-- A found entry has the looked-up key and is in the list. -/
lemma findEntry_some {k : String} {l : List (String × SessionRec)}
    {e : String × SessionRec} (hf : findEntry k l = some e) : e.1 = k ∧ e ∈ l :=
  ⟨by simpa using List.find?_some hf, List.mem_of_find?_eq_some hf⟩

/-- If no entry is found, no entry has the key. -/
lemma findEntry_none {k : String} {l : List (String × SessionRec)}
    (hf : findEntry k l = none) : ∀ e ∈ l, e.1 ≠ k := by
  intro e he
  have := List.find?_eq_none.mp hf e he
  simpa using this

/-- Erasing a key leaves a sublist. -/
lemma eraseKey_sublist (k : String) (l : List (String × SessionRec)) :
    (eraseKey k l).Sublist l :=
  List.filter_sublist l

/-- Membership in the erased list. -/
lemma mem_eraseKey {k : String} {l : List (String × SessionRec)}
    {e : String × SessionRec} : e ∈ eraseKey k l ↔ e ∈ l ∧ e.1 ≠ k := by
  unfold eraseKey
  rw [List.mem_filter]
  simp

/-- After erasing a key it can no longer be found. -/
lemma findEntry_eraseKey (k : String) (l : List (String × SessionRec)) :
    findEntry k (eraseKey k l) = none := by
  apply List.find?_eq_none.mpr
  intro e he
  have := (mem_eraseKey.mp he).2
  simpa using this

/-- With nodup keys, the list is a permutation of the found entry consed onto
the erasure of its key. -/
lemma perm_cons_eraseKey {k : String} :
    ∀ (l : List (String × SessionRec)) (e : String × SessionRec),
      (l.map Prod.fst).Nodup → findEntry k l = some e →
      l.Perm (e :: eraseKey k l) := by
  intro l
  induction l with
  | nil => intro e _ hf; simp [findEntry] at hf
  | cons a l ih =>
    intro e hN hf
    by_cases hak : a.1 = k
    · have hba : (a.1 == k) = true := by simp [hak]
      have hea : e = a := by
        unfold findEntry at hf
        simp only [List.find?, hba] at hf
        exact (Option.some.injEq _ _ ▸ hf :).symm
      have htail : ∀ x ∈ l, x.1 ≠ k := by
        intro x hx hxk
        have hmem : a.1 ∈ l.map Prod.fst := by
          rw [hak, ← hxk]; exact List.mem_map_of_mem Prod.fst hx
        exact (List.nodup_cons.mp hN).1 hmem
      have herase : eraseKey k (a :: l) = l := by
        unfold eraseKey
        rw [List.filter_cons_of_neg (by simp [hak])]
        apply List.filter_eq_self.mpr
        intro x hx
        simp [htail x hx]
      rw [herase, hea]
    · have hba : (a.1 == k) = false := by simp [hak]
      have hfl : findEntry k l = some e := by
        unfold findEntry at hf ⊢
        simpa only [List.find?, hba] using hf
      have herase : eraseKey k (a :: l) = a :: eraseKey k l := by
        unfold eraseKey
        rw [List.filter_cons_of_pos (by simp [hak])]
      rw [herase]
      have hperm := ih e (List.nodup_cons.mp hN).2 hfl
      exact (hperm.cons a).trans (List.Perm.swap e a (eraseKey k l))

/-- Keys remain nodup after moving or inserting an absent key at the end. -/
lemma keys_nodup_append_new (l : List (String × SessionRec)) (k : String)
    (r : SessionRec) (hN : (l.map Prod.fst).Nodup) (hk : ∀ e ∈ l, e.1 ≠ k) :
    (((l ++ [(k, r)]).map Prod.fst)).Nodup := by
  rw [List.map_append, List.nodup_append]
  refine ⟨hN, List.nodup_singleton k, ?_⟩
  intro x hx hx2
  simp only [List.map_cons, List.map_nil, List.mem_singleton] at hx2
  subst hx2
  rcases List.mem_map.mp hx with ⟨e, he, hfst⟩
  exact hk e he hfst

/-- Shape of eviction when the store is nonempty. -/
lemma evictLRU_cons {s : SessionStore} {a : String × SessionRec}
    {rest : List (String × SessionRec)} (hent : s.entries = a :: rest) :
    evictLRU s = { s with entries := rest, closed := s.closed ++ [a.2.handle] } := by
  unfold evictLRU; rw [hent]

/-- Shape of GetOrCreate on a present key. -/
lemma getOrCreate_found {k : String} {now : Nat} {s : SessionStore}
    {e : String × SessionRec} (hfe : findEntry k s.entries = some e) :
    (getOrCreate k now s).1 =
      { s with
          entries := eraseKey k s.entries ++ [(k, { e.2 with lastActivity := now })] } := by
  unfold getOrCreate; rw [hfe]

/-- Shape of GetOrCreate on an absent key with the store at capacity. -/
lemma getOrCreate_new_full {k : String} {now : Nat} {s : SessionStore}
    (hfe : findEntry k s.entries = none)
    (hcap : s.maxSessions ≤ s.entries.length) :
    (getOrCreate k now s).1 =
      { evictLRU s with
          entries := (evictLRU s).entries ++ [(k, ⟨(evictLRU s).nextHandle, now⟩)],
          nextHandle := (evictLRU s).nextHandle + 1 } := by
  unfold getOrCreate; rw [hfe]; simp only [if_pos hcap]

/-- Shape of GetOrCreate on an absent key with room to spare. -/
lemma getOrCreate_new_roomy {k : String} {now : Nat} {s : SessionStore}
    (hfe : findEntry k s.entries = none)
    (hcap : ¬s.maxSessions ≤ s.entries.length) :
    (getOrCreate k now s).1 =
      { s with
          entries := s.entries ++ [(k, ⟨s.nextHandle, now⟩)],
          nextHandle := s.nextHandle + 1 } := by
  unfold getOrCreate; rw [hfe]; simp only [if_neg hcap]

/-- Shape of Touch on a present key. -/
lemma touchKey_found {k : String} {now : Nat} {s : SessionStore}
    {e : String × SessionRec} (hfe : findEntry k s.entries = some e) :
    touchKey k now s =
      { s with
          entries := eraseKey k s.entries ++ [(k, { e.2 with lastActivity := now })] } := by
  unfold touchKey; rw [hfe]

/-- Shape of Remove on a present key. -/
lemma removeKey_found {k : String} {s : SessionStore}
    {e : String × SessionRec} (hfe : findEntry k s.entries = some e) :
    removeKey k s =
      ({ s with entries := eraseKey k s.entries,
                closed := s.closed ++ [e.2.handle] }, none) := by
  unfold removeKey; rw [hfe]

/-- Remove on an absent key is a no-op returning no error. -/
lemma removeKey_missing {k : String} {s : SessionStore}
    (hfe : findEntry k s.entries = none) : removeKey k s = (s, none) := by
  unfold removeKey; rw [hfe]

/-- The handle invariant transported along a permutation of the handles. -/
lemma handleInv_of_perm {s t : SessionStore}
    (hp : (handleList s).Perm (handleList t))
    (hn : s.nextHandle = t.nextHandle) (h : handleInv t) : handleInv s := by
  obtain ⟨h1, h2⟩ := h
  refine ⟨hp.symm.nodup h1, ?_⟩
  intro x hx
  rw [hn]
  exact h2 x (hp.mem_iff.mp hx)

/-- The handle invariant after allocating the next fresh handle. -/
lemma handleInv_push {s t : SessionStore}
    (hp : (handleList s).Perm (t.nextHandle :: handleList t))
    (hn : s.nextHandle = t.nextHandle + 1) (h : handleInv t) : handleInv s := by
  obtain ⟨h1, h2⟩ := h
  constructor
  · apply hp.symm.nodup
    exact List.nodup_cons.mpr ⟨fun hmem => lt_irrefl _ (h2 _ hmem), h1⟩
  · intro x hx
    rw [hn]
    rcases List.mem_cons.mp (hp.mem_iff.mp hx) with hx1 | hx2
    · omega
    · exact Nat.lt_succ_of_lt (h2 x hx2)

/-- Moving an entry to the most-recently-used position preserves the store
invariant. -/
lemma storeOK_moveToBack {k : String} {now : Nat} {s : SessionStore}
    {e : String × SessionRec} (hfe : findEntry k s.entries = some e)
    (h : storeOK s) :
    storeOK { s with
        entries := eraseKey k s.entries ++ [(k, { e.2 with lastActivity := now })] } := by
  obtain ⟨⟨hlen, hkeys⟩, hh⟩ := h
  have hperm := perm_cons_eraseKey s.entries e hkeys hfe
  refine ⟨⟨?_, ?_⟩, ?_⟩
  · have hlen2 : s.entries.length = (eraseKey k s.entries).length + 1 := by
      simpa using hperm.length_eq
    simp only [List.length_append, List.length_cons, List.length_nil]
    omega
  · have herN : ((eraseKey k s.entries).map Prod.fst).Nodup :=
      (List.Sublist.map Prod.fst (eraseKey_sublist k s.entries)).nodup hkeys
    exact keys_nodup_append_new _ k _ herN (fun x hx => (mem_eraseKey.mp hx).2)
  · refine @handleInv_of_perm _ s ?_ rfl hh
    simp only [handleList, List.map_append, List.map_cons, List.map_nil]
    exact ((List.perm_append_singleton _ _).trans
      ((hperm.map (fun x => x.2.handle)).symm)).append_right s.closed

/-- GetOrCreate preserves the store invariant when the capacity is at least
one. -/
lemma storeOK_getOrCreate (k : String) (now : Nat) (s : SessionStore)
    (hm : 1 ≤ s.maxSessions) (h : storeOK s) :
    storeOK (getOrCreate k now s).1 := by
  cases hfe : findEntry k s.entries with
  | some e => rw [getOrCreate_found hfe]; exact storeOK_moveToBack hfe h
  | none =>
    obtain ⟨⟨hlen, hkeys⟩, hh⟩ := h
    have hknotin := findEntry_none hfe
    by_cases hcap : s.maxSessions ≤ s.entries.length
    · cases hent : s.entries with
      | nil =>
        rw [hent] at hcap
        simp at hcap
        omega
      | cons a rest =>
        rw [getOrCreate_new_full hfe hcap, evictLRU_cons hent]
        have hlen2 : rest.length + 1 = s.entries.length := by rw [hent]; rfl
        have hkeys2 : ((a :: rest).map Prod.fst).Nodup := by rw [← hent]; exact hkeys
        refine ⟨⟨?_, ?_⟩, ?_⟩
        · simp only [List.length_append, List.length_cons, List.length_nil]
          omega
        · refine keys_nodup_append_new rest k _ (List.nodup_cons.mp hkeys2).2 ?_
          intro x hx
          exact hknotin x (by rw [hent]; exact List.mem_cons_of_mem a hx)
        · refine @handleInv_push _ s ?_ rfl hh
          simp only [handleList, List.map_append, List.map_cons, List.map_nil, hent]
          have p1 := (List.perm_append_singleton s.nextHandle
            (rest.map (fun x => x.2.handle))).append_right
            (s.closed ++ [a.2.handle])
          have p2 : (rest.map (fun x => x.2.handle)) ++ (s.closed ++ [a.2.handle]) =
              ((rest.map (fun x => x.2.handle)) ++ s.closed) ++ [a.2.handle] := by
            rw [List.append_assoc]
          have p3 := List.perm_append_singleton a.2.handle
            ((rest.map (fun x => x.2.handle)) ++ s.closed)
          exact p1.trans ((p2 ▸ p3).cons s.nextHandle)
    · rw [getOrCreate_new_roomy hfe hcap]
      refine ⟨⟨?_, ?_⟩, ?_⟩
      · simp only [List.length_append, List.length_cons, List.length_nil]
        omega
      · exact keys_nodup_append_new s.entries k _ hkeys hknotin
      · refine @handleInv_push _ s ?_ rfl hh
        simp only [handleList, List.map_append, List.map_cons, List.map_nil]
        have p1 := (List.perm_append_singleton s.nextHandle
          (s.entries.map (fun x => x.2.handle))).append_right s.closed
        exact p1

/-- Touch preserves the store invariant. -/
lemma storeOK_touchKey (k : String) (now : Nat) (s : SessionStore)
    (h : storeOK s) : storeOK (touchKey k now s) := by
  cases hfe : findEntry k s.entries with
  | some e => rw [touchKey_found hfe]; exact storeOK_moveToBack hfe h
  | none => unfold touchKey; rw [hfe]; exact h

/-- Remove preserves the store invariant. -/
lemma storeOK_removeKey (k : String) (s : SessionStore)
    (h : storeOK s) : storeOK (removeKey k s).1 := by
  obtain ⟨⟨hlen, hkeys⟩, hh⟩ := h
  cases hfe : findEntry k s.entries with
  | none => rw [removeKey_missing hfe]; exact ⟨⟨hlen, hkeys⟩, hh⟩
  | some e =>
    have hperm := perm_cons_eraseKey s.entries e hkeys hfe
    rw [removeKey_found hfe]
    refine ⟨⟨?_, ?_⟩, ?_⟩
    · exact le_trans (List.Sublist.length_le (eraseKey_sublist k s.entries)) hlen
    · exact (List.Sublist.map Prod.fst (eraseKey_sublist k s.entries)).nodup hkeys
    · refine @handleInv_of_perm _ s ?_ rfl hh
      simp only [handleList]
      have p2 : ((eraseKey k s.entries).map (fun x => x.2.handle)) ++
            (s.closed ++ [e.2.handle]) =
          (((eraseKey k s.entries).map (fun x => x.2.handle)) ++ s.closed) ++
            [e.2.handle] := by
        rw [List.append_assoc]
      have p3 := List.perm_append_singleton e.2.handle
        (((eraseKey k s.entries).map (fun x => x.2.handle)) ++ s.closed)
      have p5 := (hperm.map (fun x => x.2.handle)).append_right s.closed
      exact (p2 ▸ p3).trans p5.symm

/-- Every store operation preserves maxSessions. -/
lemma maxSessions_applyOp (s : SessionStore) (op : StoreOp) :
    (applyOp s op).maxSessions = s.maxSessions := by
  cases op with
  | getOrCreate k now =>
    show (getOrCreate k now s).1.maxSessions = s.maxSessions
    cases hfe : findEntry k s.entries with
    | some e => rw [getOrCreate_found hfe]
    | none =>
      by_cases hcap : s.maxSessions ≤ s.entries.length
      · rw [getOrCreate_new_full hfe hcap]
        cases hent : s.entries with
        | nil => unfold evictLRU; rw [hent]
        | cons a rest => rw [evictLRU_cons hent]
      · rw [getOrCreate_new_roomy hfe hcap]
  | touch k now =>
    show (touchKey k now s).maxSessions = s.maxSessions
    cases hfe : findEntry k s.entries with
    | some e => rw [touchKey_found hfe]
    | none => unfold touchKey; rw [hfe]
  | remove k =>
    show (removeKey k s).1.maxSessions = s.maxSessions
    cases hfe : findEntry k s.entries with
    | some e => rw [removeKey_found hfe]
    | none => rw [removeKey_missing hfe]

/-- Every store operation preserves the store invariant. -/
lemma storeOK_applyOp (s : SessionStore) (op : StoreOp)
    (hm : 1 ≤ s.maxSessions) (h : storeOK s) : storeOK (applyOp s op) := by
  cases op with
  | getOrCreate k now => exact storeOK_getOrCreate k now s hm h
  | touch k now => exact storeOK_touchKey k now s h
  | remove k => exact storeOK_removeKey k s h

/-- Every sequence of store operations preserves the store invariant. -/
lemma storeOK_applyOps : ∀ (ops : List StoreOp) (s : SessionStore),
    1 ≤ s.maxSessions → storeOK s → storeOK (applyOps ops s) := by
  intro ops
  induction ops with
  | nil => intro s _ h; exact h
  | cons op ops ih =>
    intro s hm h
    exact ih (applyOp s op)
      (by rw [maxSessions_applyOp]; exact hm)
      (storeOK_applyOp s op hm h)

/-- The empty store satisfies the invariant. -/
lemma storeOK_initStore (m : Nat) : storeOK (initStore m) := by
  refine ⟨⟨by simp [initStore], by simp [initStore]⟩, by simp [handleList, handleInv, initStore]⟩

/-- maxSessions is constant across operation sequences. -/
lemma maxSessions_applyOps : ∀ (ops : List StoreOp) (s : SessionStore),
    (applyOps ops s).maxSessions = s.maxSessions := by
  intro ops
  induction ops with
  | nil => intro s; rfl
  | cons op ops ih =>
    intro s
    exact (ih (applyOp s op)).trans (maxSessions_applyOp s op)

/-! ## C1 -/

/-- C1: for every sequence of GetOrCreate, Touch and Remove calls starting
from the empty store with capacity at least one, the store holds at most
maxSessions entries with pairwise distinct keys; and an insertion attempted
with the store at capacity first evicts exactly the least-recently-touched
entry (the head of the LRU order), closing its handle, before inserting, so
the size never exceeds the capacity. -/
theorem c1_capacity_and_lru_eviction (m : Nat) (hm : 1 ≤ m) :
    (∀ ops : List StoreOp,
      (applyOps ops (initStore m)).entries.length ≤ m ∧
      ((applyOps ops (initStore m)).entries.map Prod.fst).Nodup) ∧
    (∀ (s : SessionStore) (k : String) (now : Nat),
      s.maxSessions = m → s.entries.length = m →
      findEntry k s.entries = none →
      ∃ a rest, s.entries = a :: rest ∧
        (getOrCreate k now s).1.entries = rest ++ [(k, ⟨s.nextHandle, now⟩)] ∧
        (getOrCreate k now s).1.closed = s.closed ++ [a.2.handle]) := by
  constructor
  · intro ops
    have h := storeOK_applyOps ops (initStore m) hm (storeOK_initStore m)
    have hmax : (applyOps ops (initStore m)).maxSessions = m :=
      maxSessions_applyOps ops (initStore m)
    refine ⟨?_, h.1.2⟩
    have h1 := h.1.1
    rw [hmax] at h1
    exact h1
  · intro s k now hmax hlen hfe
    have hcap : s.maxSessions ≤ s.entries.length := by omega
    cases hent : s.entries with
    | nil =>
      rw [hent] at hlen
      simp at hlen
      omega
    | cons a rest =>
      refine ⟨a, rest, rfl, ?_, ?_⟩
      · rw [getOrCreate_new_full hfe hcap, evictLRU_cons hent]
      · rw [getOrCreate_new_full hfe hcap, evictLRU_cons hent]

/-- C1 witness: the invariant for a concrete operation sequence on a store of
capacity two. -/
theorem c1_capacity_witness :
    1 ≤ 2 ∧
    ((applyOps
        [StoreOp.getOrCreate "a" 0, StoreOp.getOrCreate "b" 1,
         StoreOp.remove "a", StoreOp.getOrCreate "c" 2, StoreOp.getOrCreate "d" 3]
        (initStore 2)).entries.length ≤ 2 ∧
      ((applyOps
        [StoreOp.getOrCreate "a" 0, StoreOp.getOrCreate "b" 1,
         StoreOp.remove "a", StoreOp.getOrCreate "c" 2, StoreOp.getOrCreate "d" 3]
        (initStore 2)).entries.map Prod.fst).Nodup) :=
  ⟨by decide,
   (c1_capacity_and_lru_eviction 2 (by decide)).1
     [StoreOp.getOrCreate "a" 0, StoreOp.getOrCreate "b" 1,
      StoreOp.remove "a", StoreOp.getOrCreate "c" 2, StoreOp.getOrCreate "d" 3]⟩

/-! ## C8 -/

/-- C8: Remove is idempotent: removing an absent key is a no-op returning no
error; a second Remove of the same key is a no-op returning no error and
closes nothing further (the resulting state, including the closed-handle
record, is unchanged); a Remove of a present key closes exactly its handle;
and over every operation sequence (covering the disconnect, idle-timeout,
eviction and shutdown exit paths) no agent handle is ever closed twice. -/
theorem c8_remove_idempotent_close_once :
    (∀ (s : SessionStore) (k : String),
      findEntry k s.entries = none → removeKey k s = (s, none)) ∧
    (∀ (s : SessionStore) (k : String),
      removeKey k (removeKey k s).1 = ((removeKey k s).1, none)) ∧
    (∀ (s : SessionStore) (k : String) (e : String × SessionRec),
      findEntry k s.entries = some e →
      (removeKey k s).1.closed = s.closed ++ [e.2.handle]) ∧
    (∀ (m : Nat) (ops : List StoreOp), 1 ≤ m →
      (applyOps ops (initStore m)).closed.Nodup) := by
  refine ⟨?_, ?_, ?_, ?_⟩
  · intro s k hfe
    exact removeKey_missing hfe
  · intro s k
    cases hfe : findEntry k s.entries with
    | none =>
      rw [removeKey_missing hfe]
      exact removeKey_missing hfe
    | some e =>
      rw [removeKey_found hfe]
      exact removeKey_missing (findEntry_eraseKey k s.entries)
  · intro s k e hfe
    rw [removeKey_found hfe]
  · intro m ops hm
    have h := storeOK_applyOps ops (initStore m) hm (storeOK_initStore m)
    exact (List.nodup_append.mp h.2.1).2.1

/-- C8 witness: the idempotence and close-once facts at a concrete store and
a concrete operation sequence. -/
theorem c8_remove_witness :
    removeKey "b" ⟨2, [("a", ⟨0, 0⟩)], [], 1⟩ = (⟨2, [("a", ⟨0, 0⟩)], [], 1⟩, none) ∧
    removeKey "a" (removeKey "a" (⟨2, [("a", ⟨0, 0⟩)], [], 1⟩ : SessionStore)).1 =
      ((removeKey "a" (⟨2, [("a", ⟨0, 0⟩)], [], 1⟩ : SessionStore)).1, none) ∧
    (removeKey "a" (⟨2, [("a", ⟨0, 0⟩)], [], 1⟩ : SessionStore)).1.closed =
      ([] : List Nat) ++ [0] ∧
    (applyOps [StoreOp.getOrCreate "a" 0, StoreOp.remove "a", StoreOp.remove "a"]
      (initStore 1)).closed.Nodup :=
  ⟨c8_remove_idempotent_close_once.1 ⟨2, [("a", ⟨0, 0⟩)], [], 1⟩ "b" (by decide),
   c8_remove_idempotent_close_once.2.1 ⟨2, [("a", ⟨0, 0⟩)], [], 1⟩ "a",
   c8_remove_idempotent_close_once.2.2.1 ⟨2, [("a", ⟨0, 0⟩)], [], 1⟩ "a" ("a", ⟨0, 0⟩)
     (by decide),
   c8_remove_idempotent_close_once.2.2.2 1
     [StoreOp.getOrCreate "a" 0, StoreOp.remove "a", StoreOp.remove "a"] (by decide)⟩

/-! ## C9 -/

/-- Removing, in order, every key of a nodup-keyed entry list empties the
store and closes exactly the handles of those entries, in order. -/
lemma drain_go : ∀ (l : List (String × SessionRec)) (s : SessionStore),
    s.entries = l → (l.map Prod.fst).Nodup →
    (l.map Prod.fst).foldl (fun st k => (removeKey k st).1) s =
      { s with entries := [], closed := s.closed ++ l.map (fun x => x.2.handle) } := by
  intro l
  induction l with
  | nil =>
    intro s hent _
    simp only [List.map_nil, List.foldl_nil, List.append_nil]
    cases s with
    | mk ms ent cl nx =>
      simp only at hent
      subst hent
      rfl
  | cons a l ih =>
    intro s hent hN
    simp only [List.map_cons, List.foldl_cons]
    have hfa : findEntry a.1 s.entries = some a := by
      rw [hent]
      unfold findEntry
      simp [List.find?]
    have htail : ∀ x ∈ l, x.1 ≠ a.1 := by
      intro x hx hxk
      have hmem : a.1 ∈ l.map Prod.fst := by
        rw [← hxk]; exact List.mem_map_of_mem Prod.fst hx
      exact (List.nodup_cons.mp hN).1 hmem
    have herase : eraseKey a.1 s.entries = l := by
      rw [hent]
      unfold eraseKey
      rw [List.filter_cons_of_neg (by simp)]
      apply List.filter_eq_self.mpr
      intro x hx
      simp [htail x hx]
    rw [removeKey_found hfa, herase]
    have hres := ih ⟨s.maxSessions, l, s.closed ++ [a.2.handle], s.nextHandle⟩ rfl
      (List.nodup_cons.mp hN).2
    dsimp only
    rw [hres]
    simp [List.append_assoc]

/-- C9: raising the shutdown signal drains the Session Store: every remaining
key is removed and every agent handle of the store is closed, leaving zero
entries. -/
theorem c9_shutdown_drains_store (s : SessionStore)
    (h : (storeKeys s).Nodup) :
    (drainStore s).entries = [] ∧
    (drainStore s).closed = s.closed ++ s.entries.map (fun x => x.2.handle) := by
  have hgo := drain_go s.entries s rfl h
  unfold drainStore
  rw [show storeKeys s = s.entries.map Prod.fst from rfl, hgo]
  exact ⟨rfl, rfl⟩

/-- C9 witness: a store with three active sessions drains to zero entries
with all three agent handles closed. -/
theorem c9_shutdown_witness :
    (storeKeys ⟨3, [("u1", ⟨0, 5⟩), ("u2", ⟨1, 6⟩), ("u3", ⟨2, 7⟩)], [], 3⟩).Nodup ∧
    ((drainStore ⟨3, [("u1", ⟨0, 5⟩), ("u2", ⟨1, 6⟩), ("u3", ⟨2, 7⟩)], [], 3⟩).entries = [] ∧
      (drainStore ⟨3, [("u1", ⟨0, 5⟩), ("u2", ⟨1, 6⟩), ("u3", ⟨2, 7⟩)], [], 3⟩).closed =
        (⟨3, [("u1", ⟨0, 5⟩), ("u2", ⟨1, 6⟩), ("u3", ⟨2, 7⟩)], [], 3⟩ :
          SessionStore).closed ++
          (⟨3, [("u1", ⟨0, 5⟩), ("u2", ⟨1, 6⟩), ("u3", ⟨2, 7⟩)], [], 3⟩ :
            SessionStore).entries.map (fun x => x.2.handle)) :=
  ⟨by decide,
   c9_shutdown_drains_store ⟨3, [("u1", ⟨0, 5⟩), ("u2", ⟨1, 6⟩), ("u3", ⟨2, 7⟩)], [], 3⟩
     (by decide)⟩

/-! ## C3 -/

/-- C3: a Touch strictly before the pending idle-timeout deadline prevents
that timeout from removing the session: the cancelled (generation 0) timer
firing at or after the original deadline leaves the session present, the
restarted timer's deadline is t + idleTimeout, and a firing of the restarted
timer before that new deadline also leaves the session present; without the
Touch, the same firing would have removed the session. -/
theorem c3_touch_cancels_pending_timeout (idleTimeout t tFire tFire2 : Nat)
    (h1 : t < idleTimeout) (h2 : idleTimeout ≤ tFire)
    (h3 : tFire2 < t + idleTimeout) :
    (timerRun idleTimeout [TimerEvent.fire 0 tFire]).present = false ∧
    (timerRun idleTimeout [TimerEvent.touch t]).deadline = t + idleTimeout ∧
    (timerRun idleTimeout
      [TimerEvent.touch t, TimerEvent.fire 0 tFire]).present = true ∧
    (timerRun idleTimeout
      [TimerEvent.touch t, TimerEvent.fire 0 tFire,
       TimerEvent.fire 1 tFire2]).present = true := by
  refine ⟨?_, ?_, ?_, ?_⟩
  · simp [timerRun, timerStep, h2]
  · simp [timerRun, timerStep]
  · simp [timerRun, timerStep]
  · simp [timerRun, timerStep, Nat.not_le.mpr h3]

/-- C3 witness: with idle timeout 10, a touch at time 9 keeps the session
alive past the original deadline 10 and until just before the new deadline
19, while without the touch the firing at 10 removes it. -/
theorem c3_touch_witness :
    (9 < 10 ∧ 10 ≤ 10 ∧ 18 < 9 + 10) ∧
    ((timerRun 10 [TimerEvent.fire 0 10]).present = false ∧
     (timerRun 10 [TimerEvent.touch 9]).deadline = 9 + 10 ∧
     (timerRun 10 [TimerEvent.touch 9, TimerEvent.fire 0 10]).present = true ∧
     (timerRun 10 [TimerEvent.touch 9, TimerEvent.fire 0 10,
        TimerEvent.fire 1 18]).present = true) :=
  ⟨by decide,
   c3_touch_cancels_pending_timeout 10 9 10 18 (by decide) (by decide) (by decide)⟩

/-! ## C2 -/

/-- C2: the code violates the claim at the failing input.  When the client
disconnects, the inbound loop catches WebSocketDisconnect and returns
normally, forwarding nothing further (first conjunct, from the embedded
handle_websocket_messages of src/main.py lines 328-372); asyncio.TaskGroup
does not cancel the sibling on a normal return, so the outbound loop is
neither cancelled nor terminated (src/main.py lines 422-425); and even after
the outbound loop later ends and the handler finally block runs (lines
431-432, which only log), the client socket and the borrowed agent handle
have each been released zero times, not exactly once. -/
theorem c2_normal_finish_no_cancel_no_release :
    handle_websocket_messages [InMsg.disconnect] = [] ∧
    (tgRun [TgEvent.inboundReturns]).inboundDone = true ∧
    (tgRun [TgEvent.inboundReturns]).outboundCancelRequested = false ∧
    (tgRun [TgEvent.inboundReturns]).outboundDone = false ∧
    (tgRun [TgEvent.inboundReturns, TgEvent.outboundReturns,
       TgEvent.groupExit]).socketReleased = 0 ∧
    (tgRun [TgEvent.inboundReturns, TgEvent.outboundReturns,
       TgEvent.groupExit]).handleReleased = 0 := by
  decide
